import Mathlib

/-!
Shallow embedding of the "Dungeons and Agents" game-rules engine
(voice_agents/python-agents-examples/complex-agents/role-playing).

The repository ships the rules engine's documentation (the role-playing
README, which pins skill-check semantics, item base values and the trade-DC
table) together with the frontend component `game-status.tsx`; the Python
modules `game_mechanics.py`, `character.py` and `core/game_state.py` named
by that README are not part of the corpus, so the executable behaviour of
the dice roller, the skill check, the combat state machine, the trade
engine and the orchestrator is modelled from the specification, while item
valuation and the trade-DC table follow the README's own numbers, and the
rendering guard follows `game-status.tsx` directly.
-/

namespace DungeonsAgents

/-! ## SkillCheck -/

/-- The four-way outcome of a d20 skill check (README "Skill Checks",
spec 4.2). -/
inductive CheckOutcome where
  | CriticalSuccess
  | Success
  | Failure
  | CriticalFailure
  deriving DecidableEq, Repr

/-- Modelled from the spec: `SkillCheck.resolve` of `game_mechanics.py` is
absent from the corpus; spec 4.2 — roll 1d20, add the ability modifier,
compare to the DC, with a natural 20 giving CriticalSuccess and a natural 1
giving CriticalFailure, both checked before the numeric comparison.
`roll` is the natural d20 result supplied by the dice roller. -/
def resolveSkillCheck (roll : Nat) (modifier : Int) (dc : Int) : CheckOutcome :=
  if roll = 20 then .CriticalSuccess
  else if roll = 1 then .CriticalFailure
  else if (roll : Int) + modifier ≥ dc then .Success
  else .Failure

/-- A check outcome counts as passing when it is Success or
CriticalSuccess (spec 4.4 step 5). -/
def CheckOutcome.passes : CheckOutcome → Bool
  | .CriticalSuccess => true
  | .Success => true
  | _ => false

/-! ## Items and valuation -/

/-- An item: name, category (a free-form string in the source — the README
constructs `Item` with a string category), description and a property bag;
the property bag is irrelevant to valuation and is kept as an association
list of string pairs (README "Custom NPCs"). -/
structure Item where
  name : String
  category : String
  description : String
  properties : List (String × String)
  deriving DecidableEq, Repr

/-- Base gold value of an item by category, per the README's trade table
("Weapons: 50 gold Armor: 75 gold / Consumables: 20 gold Miscellaneous:
10 gold (default 25 if unknown)"). -/
def itemBaseValue (it : Item) : Nat :=
  if it.category = "weapon" then 50
  else if it.category = "armor" then 75
  else if it.category = "consumable" then 20
  else if it.category = "misc" then 10
  else 25

/-! ## Trade DC -/

/-- Trade difficulty class from the offer/request value ratio, per the
README's table (offer ≥ 150% of request → DC 5; ≥ 100% → DC 10;
≥ 75% → DC 15; otherwise DC 20). The source computes a real-valued
ratio; with integer gold values it is exactly a rational. -/
def tradeDC (ratio : ℚ) : Nat :=
  if ratio ≥ 3/2 then 5
  else if ratio ≥ 1 then 10
  else if ratio ≥ 3/4 then 15
  else 20

/-- The offer/request value ratio (spec 4.4 step 2, requires a positive
request value). -/
def tradeRatio (offerValue requestValue : ℚ) : ℚ :=
  offerValue / requestValue

/-! ## Trade engine -/

/-- Number of items in an inventory bearing a given name. -/
def countName (inv : List Item) (nm : String) : Nat :=
  inv.countP (fun it => it.name == nm)

/-- Extract the items named by `names` from an inventory, one occurrence
per listed name, returning the extracted items (in listed order) and the
remaining inventory; `none` when some listed name is absent — the engine's
ItemNotFound condition (spec 4.4 edge case). -/
def extractItems : List Item → List String → Option (List Item × List Item)
  | inv, [] => some ([], inv)
  | inv, nm :: rest =>
    match inv.find? (fun it => it.name == nm) with
    | none => none
    | some it =>
      match extractItems (inv.eraseP (fun i => i.name == nm)) rest with
      | none => none
      | some p => some (it :: p.1, p.2)

/-- Total base value of a list of items. -/
def itemsValue (items : List Item) : Nat :=
  (items.map itemBaseValue).sum

/-- The trade DC computed directly on the integer offer and request
values; for a positive request value it agrees with `tradeDC` applied to
the rational offer/request ratio (the source compares a real-valued ratio
to 1.5, 1.0 and 0.75; with integer gold values the comparisons below are
exact). -/
def tradeDCInt (offerValue requestValue : Nat) : Nat :=
  if 3 * requestValue ≤ 2 * offerValue then 5
  else if requestValue ≤ offerValue then 10
  else if 3 * requestValue ≤ 4 * offerValue then 15
  else 20

/-- A trading party: gold, inventory and the charisma modifier used by
the NPC's acceptance check. -/
structure Trader where
  gold : Nat
  inventory : List Item
  charisma : Int
  deriving DecidableEq, Repr

/-- One side of a proposed exchange: a gold amount and item names. -/
structure TradeOffer where
  gold : Nat
  items : List String
  deriving DecidableEq, Repr

/-- Trade-engine failures (spec 4.4 and the error taxonomy of spec 7). -/
inductive TradeError where
  | InvalidTrade
  | InsufficientFunds
  | ItemNotFound
  deriving DecidableEq, Repr

/-- Outcome of a validated trade: accepted (check passed) or refused
(check failed), carrying the NPC's check outcome. -/
inductive TradeResult where
  | accepted (outcome : CheckOutcome)
  | refused (outcome : CheckOutcome)
  deriving DecidableEq, Repr

/-- Equality of fallible results is decidable when both payload types
have decidable equality. -/
instance {ε α : Type} [DecidableEq ε] [DecidableEq α] :
    DecidableEq (Except ε α) := fun a b =>
  match a, b with
  | .error x, .error y =>
    if h : x = y then .isTrue (by rw [h]) else .isFalse (by simp [h])
  | .error _, .ok _ => .isFalse (by simp)
  | .ok _, .error _ => .isFalse (by simp)
  | .ok x, .ok y =>
    if h : x = y then .isTrue (by rw [h]) else .isFalse (by simp [h])

/-- Result of a trade proposal: the structured result plus both parties'
states after the call. -/
structure TradeStep where
  result : Except TradeError TradeResult
  player : Trader
  npc : Trader
  deriving DecidableEq, Repr

/-- Modelled from the spec: the trade engine of the role-playing agent is
not in the corpus; spec 4.4 — resolve the offered items against the
player's inventory and the requested items against the NPC's (ItemNotFound
on a miss), require a positive request value (else InvalidTrade), require
both parties to hold the gold they are giving (else InsufficientFunds),
all before the die is rolled; then the NPC checks charisma against the DC
derived from the offer/request value ratio, and on Success or
CriticalSuccess the whole exchange moves in one step, otherwise nothing
changes. `roll` is the NPC's natural d20. -/
def proposeTrade (player npc : Trader) (offer request : TradeOffer)
    (roll : Nat) : TradeStep :=
  match extractItems player.inventory offer.items with
  | none => ⟨.error .ItemNotFound, player, npc⟩
  | some po =>
    match extractItems npc.inventory request.items with
    | none => ⟨.error .ItemNotFound, player, npc⟩
    | some nr =>
      let offerValue := offer.gold + itemsValue po.1
      let requestValue := request.gold + itemsValue nr.1
      if requestValue = 0 then ⟨.error .InvalidTrade, player, npc⟩
      else if player.gold < offer.gold then
        ⟨.error .InsufficientFunds, player, npc⟩
      else if npc.gold < request.gold then
        ⟨.error .InsufficientFunds, player, npc⟩
      else
        let outcome := resolveSkillCheck roll npc.charisma
          (tradeDCInt offerValue requestValue)
        if outcome.passes then
          ⟨.ok (.accepted outcome),
           ⟨player.gold - offer.gold + request.gold, po.2 ++ nr.1,
            player.charisma⟩,
           ⟨npc.gold + offer.gold - request.gold, nr.2 ++ po.1,
            npc.charisma⟩⟩
        else ⟨.ok (.refused outcome), player, npc⟩

/-- A sample player for concrete evaluation: 30 gold, one dagger. -/
def samplePlayer : Trader :=
  ⟨30, [⟨"dagger", "weapon", "a short blade", []⟩], 1⟩

/-- A sample merchant NPC for concrete evaluation: 50 gold, one potion. -/
def sampleNpc : Trader :=
  ⟨50, [⟨"potion", "consumable", "a healing salve", []⟩], 2⟩

/-! ## DiceRoller -/

/-- Modelled from the spec: the spec (4.1) mandates an injectable seeded
pseudo-random generator but pins no algorithm; a linear congruential
generator over a `Nat` state stands in. It is pure: each step returns the
drawn value and the next state. -/
def lcgNext (s : Nat) : Nat × Nat :=
  ((s * 1103515245 + 12345) % 2147483648, (s * 1103515245 + 12345) % 2147483648)

/-- Draw one die roll uniform in [1, d] from the generator state. -/
def rollOne (d : Nat) (s : Nat) : Nat × Nat :=
  (1 + (lcgNext s).1 % d, (lcgNext s).2)

/-- Draw `n` die rolls of size `d`, threading the generator state. -/
def rollMany : Nat → Nat → Nat → List Nat × Nat
  | 0, _, s => ([], s)
  | n + 1, d, s =>
    ((rollOne d s).1 :: (rollMany n d (rollOne d s).2).1,
     (rollMany n d (rollOne d s).2).2)

/-- The dice-roller error: stands for the spec's InvalidNotation failure
(count below 1 or die size below 2, spec 4.1). -/
inductive DiceError where
  | invalid
  deriving DecidableEq, Repr

/-- A parsed dice expression: count `n`, die size `d` and an integer
modifier `m` (conventionally written "NdX+M"). -/
structure DiceExpr where
  count : Nat
  sides : Nat
  modifier : Int
  deriving DecidableEq, Repr

/-- The dice roller's result: the individual rolls (for display/audit) and
the total. -/
structure RollResult where
  rolls : List Nat
  total : Int
  deriving DecidableEq, Repr

/-- Modelled from the spec: `DiceRoller` of `game_mechanics.py` is absent
from the corpus; spec 4.1 — reject count < 1 or die size < 2 with the
InvalidNotation error, otherwise produce `n` rolls in [1, d], sum them and
add the modifier. Deterministic in the supplied seed. -/
def rollDice (e : DiceExpr) (seed : Nat) : Except DiceError RollResult :=
  if e.count < 1 ∨ e.sides < 2 then .error .invalid
  else
    let p := rollMany e.count e.sides seed
    .ok { rolls := p.1, total := (p.1.sum : Int) + e.modifier }

/-! ## Combat engine -/

/-- A combat participant: a live health snapshot distinct from the
persistent character record, plus the stats and carried wealth the combat
and loot rules read (spec 3 CombatState). `hp = 0` means defeated. -/
structure Combatant where
  name : String
  isPlayer : Bool
  hp : Nat
  maxHp : Nat
  ac : Int
  initiative : Int
  dexMod : Int
  strMod : Int
  defending : Bool
  gold : Nat
  inventory : List Item
  deriving DecidableEq, Repr

/-- Initiative precedence: higher initiative first, ties broken by higher
dexterity modifier, remaining ties non-strict so the stable insertion sort
keeps insertion order (spec 4.3 Initialization). -/
def initPrec (a b : Combatant) : Bool :=
  decide (b.initiative < a.initiative) ∨
    (a.initiative == b.initiative ∧ decide (b.dexMod ≤ a.dexMod))

/-- Insert a participant into an initiative-sorted list, before the first
entry it precedes. -/
def orderedInsert (a : Combatant) : List Combatant → List Combatant
  | [] => [a]
  | b :: t => if initPrec a b then a :: b :: t else b :: orderedInsert a t

/-- Stable descending initiative sort (insertion sort). -/
def sortByInitiative (l : List Combatant) : List Combatant :=
  l.foldr orderedInsert []

/-- The turn state of an active combat: round counter, index of the
participant whose turn it is, and the participant snapshots in turn
order. -/
structure CombatState where
  round : Nat
  currentTurnIndex : Nat
  participants : List Combatant
  deriving DecidableEq, Repr

/-- Modelled from the spec: combat initialization (spec 4.3) — sort the
participants by descending initiative (stable on ties), start at turn
index 0, round 1. The initiative rolls (1d20 + dexterity) are already on
the participants; they are never re-rolled. -/
def initializeCombat (ps : List Combatant) : CombatState :=
  { round := 1, currentTurnIndex := 0, participants := sortByInitiative ps }

/-- Fuel-bounded search for the first index at or after `k` whose
participant is still standing. -/
def findAliveAux (ps : List Combatant) : Nat → Nat → Option Nat
  | _, 0 => none
  | k, fuel + 1 =>
    match ps[k]? with
    | none => none
    | some p => if 0 < p.hp then some k else findAliveAux ps (k + 1) fuel

/-- First index at or after `k` holding a participant with positive
health, if any. -/
def findAlive (ps : List Combatant) (k : Nat) : Option Nat :=
  findAliveAux ps k (ps.length - k)

/-- Modelled from the spec: turn advance (spec 4.3) — move past the
current participant, skipping the defeated; when the scan passes the end
of the order it wraps to the front and the round counter increments. The
participant list (and with it every initiative value) is untouched. -/
def advanceTurn (cs : CombatState) : CombatState :=
  match findAlive cs.participants (cs.currentTurnIndex + 1) with
  | some j => { cs with currentTurnIndex := j }
  | none =>
    match findAlive cs.participants 0 with
    | some j => { cs with currentTurnIndex := j, round := cs.round + 1 }
    | none => cs

/-- All hostile participants are down (Victory condition, spec 4.3
end-of-action check). -/
def allEnemiesDown (cs : CombatState) : Bool :=
  cs.participants.all (fun p => p.isPlayer || p.hp == 0)

/-- The player participant is down (Defeat condition). -/
def playerDown (cs : CombatState) : Bool :=
  cs.participants.any (fun p => p.isPlayer && p.hp == 0)

/-- Dexterity modifier of the player participant (0 if absent). -/
def playerDexMod (cs : CombatState) : Int :=
  ((cs.participants.find? (fun p => p.isPlayer)).map
    (fun p => p.dexMod)).getD 0

/-- Strength modifier of the player participant (0 if absent). -/
def playerStrMod (cs : CombatState) : Int :=
  ((cs.participants.find? (fun p => p.isPlayer)).map
    (fun p => p.strMod)).getD 0

/-- Modelled from the spec: the fixed escape DC of the Flee action
(spec 4.3 gives no number; 12 stands in — no claim depends on the
value). -/
def escapeDC : Int := 12

/-- Subtract damage from the named target's health, floored at 0
(spec 4.3 Attack). -/
def damageTarget (ps : List Combatant) (nm : String) (dmg : Nat) :
    List Combatant :=
  ps.map (fun p => if p.name = nm then { p with hp := p.hp - dmg } else p)

/-- Raise the defending flag on the participant at the given index
(spec 4.3 Defend). -/
def setDefending : List Combatant → Nat → List Combatant
  | [], _ => []
  | p :: t, 0 => { p with defending := true } :: t
  | p :: t, n + 1 => p :: setDefending t n

/-! ## Orchestrator -/

/-- The session mode (spec 3 GameSession). -/
inductive Mode where
  | CharacterCreation
  | Exploration
  | Combat
  deriving DecidableEq, Repr

/-- The player's persistent record as the loot and trade rules see it. -/
structure PlayerRecord where
  gold : Nat
  inventory : List Item
  deriving DecidableEq, Repr

/-- The orchestrator's owned context: the player, the mode, the active
combat (present only in Combat mode) and the append-only story log. -/
structure GameSession where
  player : PlayerRecord
  mode : Mode
  combat : Option CombatState
  log : List String
  deriving DecidableEq, Repr

/-- Terminal combat outcomes (spec 4.3). -/
inductive CombatOutcome where
  | Victory
  | Defeat
  | Fled
  deriving DecidableEq, Repr

/-- Player-issued combat actions the embedding covers. -/
inductive CombatAction where
  | attack (target : String)
  | defend
  | flee
  deriving DecidableEq, Repr

/-- Orchestrator command failures (spec 7 error taxonomy). -/
inductive CmdError where
  | WrongMode
  | UnknownParticipant
  deriving DecidableEq, Repr

/-- Structured result of a combat-mode command. -/
inductive ActionResult where
  | started
  | turnDone
  | ended (outcome : CombatOutcome)
  deriving DecidableEq, Repr

/-- Result of an orchestrator call: the structured result plus the session
after the call. -/
structure CommandStep where
  result : Except CmdError ActionResult
  session : GameSession
  deriving DecidableEq, Repr

/-- Move every listed enemy's gold and inventory to the player (spec 4.3
loot transfer). -/
def lootTransfer (pl : PlayerRecord) (enemies : List Combatant) :
    PlayerRecord :=
  { gold := pl.gold + (enemies.map Combatant.gold).sum,
    inventory :=
      pl.inventory ++ enemies.foldr (fun e acc => e.inventory ++ acc) [] }

/-- The hostile participants of a combat state. -/
def hostiles (cs : CombatState) : List Combatant :=
  cs.participants.filter (fun p => !p.isPlayer)

/-- Modelled from the spec: the end-of-action check (spec 4.3) — if every
hostile is down, combat ends with Victory, the defeated enemies' gold and
items move to the player and the combat state (with the enemy snapshots)
is discarded; if the player is down, Defeat, returning to Exploration;
otherwise the turn advances. -/
def endOfAction (s : GameSession) (cs : CombatState) : CommandStep :=
  if allEnemiesDown cs then
    ⟨.ok (.ended .Victory),
     { s with player := lootTransfer s.player (hostiles cs),
              mode := .Exploration, combat := none }⟩
  else if playerDown cs then
    ⟨.ok (.ended .Defeat), { s with mode := .Exploration, combat := none }⟩
  else
    ⟨.ok .turnDone, { s with combat := some (advanceTurn cs) }⟩

/-- Damage dealt by an attack given its to-hit outcome: double damage
dice on a critical hit, the damage dice on a hit, none on a miss
(spec 4.3 Attack). -/
def attackDamage (oc : CheckOutcome) (dmgRoll : Nat) : Nat :=
  match oc with
  | .CriticalSuccess => 2 * dmgRoll
  | .Success => dmgRoll
  | _ => 0

/-- The participant list after the player attacks the named target: the
to-hit check runs against the target's effective armor class (raised while
defending) and, when it passes, the damage applies. -/
def attackedParticipants (cs : CombatState) (target : String)
    (tgt : Combatant) (roll dmgRoll : Nat) : List Combatant :=
  if (resolveSkillCheck roll (playerStrMod cs)
      (tgt.ac + (if tgt.defending then 2 else 0))).passes then
    damageTarget cs.participants target
      (attackDamage (resolveSkillCheck roll (playerStrMod cs)
        (tgt.ac + (if tgt.defending then 2 else 0))) dmgRoll)
  else cs.participants

/-- Modelled from the spec: `submit_combat_action` (spec 4.3 and 4.5) —
rejected with WrongMode outside Combat; Flee resolves a dexterity check
against the fixed escape DC, ending combat with Fled on success (no loot)
and consuming the turn with no other change on failure; Defend raises the
defensive flag and the action resolves; Attack resolves a to-hit check
(natural-20/natural-1 semantics as in 4.2) against the target's effective
armor class, a hit dealing the damage roll (doubled on a critical) floored
at 0; after Defend or Attack the end-of-action check runs. `roll` is the
action's natural d20 and `dmgRoll` the damage-dice total. -/
def submitCombatAction (s : GameSession) (a : CombatAction)
    (roll : Nat) (dmgRoll : Nat) : CommandStep :=
  match s.mode, s.combat with
  | .Combat, some cs =>
    match a with
    | .flee =>
      if (resolveSkillCheck roll (playerDexMod cs) escapeDC).passes then
        ⟨.ok (.ended .Fled),
         { s with mode := .Exploration, combat := none }⟩
      else
        ⟨.ok .turnDone, { s with combat := some (advanceTurn cs) }⟩
    | .defend =>
      endOfAction s
        { cs with participants :=
            setDefending cs.participants cs.currentTurnIndex }
    | .attack target =>
      match cs.participants.find?
          (fun p => !p.isPlayer && p.name == target) with
      | none => ⟨.error .UnknownParticipant, s⟩
      | some tgt =>
        endOfAction s
          { cs with participants :=
              attackedParticipants cs target tgt roll dmgRoll }
  | _, _ => ⟨.error .WrongMode, s⟩

/-- Modelled from the spec: `start_combat` (spec 4.5) — rejected with
WrongMode outside Exploration; otherwise installs the initialized combat
state over the given participant snapshots and enters Combat mode. -/
def startCombat (s : GameSession) (ps : List Combatant) : CommandStep :=
  if s.mode = .Exploration then
    ⟨.ok .started,
     { s with mode := .Combat, combat := some (initializeCombat ps) }⟩
  else ⟨.error .WrongMode, s⟩

/-- The turn invariant: the participant whose turn it is has positive
health (spec 3 CombatState invariant). -/
def TurnInv (cs : CombatState) : Prop :=
  ∃ p, cs.participants[cs.currentTurnIndex]? = some p ∧ 0 < p.hp

/-- A sample player combatant for concrete evaluation. -/
def samplePC : Combatant :=
  ⟨"hero", true, 10, 10, 12, 15, 2, 3, false, 0, []⟩

/-- A sample hostile combatant (2 health left, carrying loot). -/
def sampleGoblin : Combatant :=
  ⟨"goblin", false, 2, 6, 10, 8, 1, 1, false, 7,
   [⟨"coin", "misc", "a bent coin", []⟩]⟩

/-- A sample session sitting in Exploration with no active combat. -/
def sampleExploreSession : GameSession :=
  ⟨⟨10, []⟩, .Exploration, none, []⟩

/-- A sample session in Combat mode against the goblin. -/
def sampleCombatSession : GameSession :=
  ⟨⟨10, []⟩, .Combat, some ⟨1, 0, [samplePC, sampleGoblin]⟩, []⟩

/-! ## Frontend GameStatus component (game-status.tsx) -/

/-- The player snapshot the frontend receives (game-status.tsx
`PlayerStats`; `class` is a reserved word here, hence `playerClass`).
Numbers are modelled as rationals, the exact arithmetic of the
percentages the component computes. -/
structure PlayerStats where
  name : String
  playerClass : String
  level : ℚ
  current_health : ℚ
  max_health : ℚ
  ac : ℚ
  gold : ℚ
  deriving DecidableEq

/-- An inventory row of the snapshot (game-status.tsx `InventoryItem`). -/
structure InventoryItemSnap where
  name : String
  itemType : String
  quantity : Nat
  description : String
  is_equipped : Bool
  deriving DecidableEq

/-- The equipped pair of the snapshot. -/
structure EquippedSnap where
  weapon : Option String
  armor : Option String
  deriving DecidableEq

/-- The fetched game-state snapshot (game-status.tsx `GameState`): the
player field is nullable. -/
structure GameStateSnap where
  game_state : String
  player : Option PlayerStats
  inventory : List InventoryItemSnap
  equipped : EquippedSnap
  deriving DecidableEq

/-- A combat participant snapshot (game-status.tsx
`CombatParticipant`). -/
structure CombatParticipantSnap where
  name : String
  participantType : String
  current_health : ℚ
  max_health : ℚ
  ac : ℚ
  is_current_turn : Bool
  deriving DecidableEq

/-- The combat portion of the snapshot (game-status.tsx `CombatState`). -/
structure CombatSnap where
  round : Nat
  current_turn_index : Nat
  turn_order : List String
  participants : List CombatParticipantSnap
  deriving DecidableEq

/-- The combat snapshot wrapper: an `in_combat` flag and a nullable
combat record. -/
structure CombatStateSnap where
  in_combat : Bool
  combat : Option CombatSnap
  deriving DecidableEq

/-- What the component puts on screen when it renders: the health-bar
percentage and colour, whether the combat card shows, and the inventory
count on the toggle button. -/
structure StatusView where
  healthPercentage : ℚ
  healthColor : String
  showsCombatCard : Bool
  inventoryCount : Nat
  deriving DecidableEq

/-- The render logic of `GameStatus` (game-status.tsx lines 181-295):
`if (!gameState?.player) return null` — nothing is rendered while the
fetch has not succeeded or the player field is null; only past that guard
is `healthPercentage = current_health / max_health * 100` computed, the
combat card shown (when `combatState?.in_combat && combatState.combat`),
and the inventory listed. -/
def renderGameStatus (gameState : Option GameStateSnap)
    (combatState : Option CombatStateSnap) : Option StatusView :=
  match gameState with
  | none => none
  | some gs =>
    match gs.player with
    | none => none
    | some pl =>
      some
        { healthPercentage := pl.current_health / pl.max_health * 100,
          healthColor :=
            if pl.current_health / pl.max_health * 100 > 50 then
              "bg-green-500"
            else if pl.current_health / pl.max_health * 100 > 25 then
              "bg-yellow-500"
            else "bg-red-500",
          showsCombatCard :=
            match combatState with
            | some c => c.in_combat && c.combat.isSome
            | none => false,
          inventoryCount := gs.inventory.length }

/-- A sample player snapshot at 30/40 health. -/
def samplePlayerStats : PlayerStats :=
  ⟨"Marcus", "warrior", 3, 30, 40, 14, 10⟩

/-- A sample fetched snapshot carrying that player. -/
def sampleGameSnap : GameStateSnap :=
  ⟨"exploration", some samplePlayerStats, [], ⟨none, none⟩⟩

/-! ## Theorems -/

/-- C1: a natural 20 yields CriticalSuccess and a natural 1 yields
CriticalFailure irrespective of modifier and DC (both critical branches
pre-empt the numeric comparison), and for any other roll the outcome is
Success exactly when roll + modifier meets the DC and Failure exactly when
it does not. -/
theorem skillCheck_critical_precedence (roll : Nat) (m dc : Int) :
    (roll = 20 → resolveSkillCheck roll m dc = .CriticalSuccess) ∧
    (roll = 1 → resolveSkillCheck roll m dc = .CriticalFailure) ∧
    (roll ≠ 20 → roll ≠ 1 →
      (resolveSkillCheck roll m dc = .Success ↔ (roll : Int) + m ≥ dc) ∧
      (resolveSkillCheck roll m dc = .Failure ↔ (roll : Int) + m < dc)) := by
  unfold resolveSkillCheck
  refine ⟨fun h => by simp [h], fun h => by simp [h], fun h20 h1 => ?_⟩
  rw [if_neg h20, if_neg h1]
  constructor
  · constructor
    · intro h
      by_contra hlt
      rw [if_neg hlt] at h
      exact CheckOutcome.noConfusion h
    · intro h
      rw [if_pos h]
  · constructor
    · intro h
      by_contra hge
      push_neg at hge
      rw [if_pos hge] at h
      exact CheckOutcome.noConfusion h
    · intro h
      rw [if_neg (by omega)]

/-- Witness for C1: natural 20 with modifier −30 against DC 15 (total far
below DC) is still a CriticalSuccess; natural 1 with modifier +30 against
DC 15 (total far above) is still a CriticalFailure; a natural 12 succeeds
with modifier +3 against DC 15 and fails with modifier +2. -/
theorem skillCheck_critical_precedence_witness :
    resolveSkillCheck 20 (-30) 15 = CheckOutcome.CriticalSuccess ∧
    resolveSkillCheck 1 30 15 = CheckOutcome.CriticalFailure ∧
    resolveSkillCheck 12 3 15 = CheckOutcome.Success ∧
    resolveSkillCheck 12 2 15 = CheckOutcome.Failure := by
  refine ⟨(skillCheck_critical_precedence 20 (-30) 15).1 rfl,
          (skillCheck_critical_precedence 1 30 15).2.1 rfl, ?_, ?_⟩
  · exact ((skillCheck_critical_precedence 12 3 15).2.2 (by decide)
      (by decide)).1.mpr (by decide)
  · exact ((skillCheck_critical_precedence 12 2 15).2.2 (by decide)
      (by decide)).2.mpr (by decide)

/-- The engine's integer-valued DC computation agrees with the threshold
function of the rational offer/request ratio whenever the request value is
positive. -/
theorem tradeDCInt_eq (oV rV : Nat) (hr : 0 < rV) :
    tradeDCInt oV rV = tradeDC (tradeRatio oV rV) := by
  have hrQ : (0 : ℚ) < rV := by exact_mod_cast hr
  have h1 : ((3 : ℚ)/2 ≤ (oV : ℚ)/rV) ↔ 3 * rV ≤ 2 * oV := by
    rw [le_div_iff₀ hrQ]
    constructor
    · intro h
      have h2 : (3 * rV : ℚ) ≤ 2 * oV := by linarith
      exact_mod_cast h2
    · intro h
      have h2 : (3 * rV : ℚ) ≤ 2 * oV := by exact_mod_cast h
      linarith
  have h2 : ((1 : ℚ) ≤ (oV : ℚ)/rV) ↔ rV ≤ oV := by
    rw [le_div_iff₀ hrQ]
    constructor
    · intro h
      have h2 : (rV : ℚ) ≤ oV := by linarith
      exact_mod_cast h2
    · intro h
      have h2 : (rV : ℚ) ≤ oV := by exact_mod_cast h
      linarith
  have h3 : ((3 : ℚ)/4 ≤ (oV : ℚ)/rV) ↔ 3 * rV ≤ 4 * oV := by
    rw [le_div_iff₀ hrQ]
    constructor
    · intro h
      have h2 : (3 * rV : ℚ) ≤ 4 * oV := by linarith
      exact_mod_cast h2
    · intro h
      have h2 : (3 * rV : ℚ) ≤ 4 * oV := by exact_mod_cast h
      linarith
  unfold tradeDCInt tradeDC tradeRatio
  simp only [ge_iff_le, h1, h2, h3]

/-- C3: the trade DC is exactly the four-band threshold function of the
offer/request ratio, it is monotonically non-increasing in the ratio, and
the engine's integer DC computation realizes exactly that threshold
function of offer value over request value. -/
theorem tradeDC_thresholds (r : ℚ) :
    (r ≥ 3/2 → tradeDC r = 5) ∧
    (1 ≤ r ∧ r < 3/2 → tradeDC r = 10) ∧
    (3/4 ≤ r ∧ r < 1 → tradeDC r = 15) ∧
    (r < 3/4 → tradeDC r = 20) ∧
    (∀ s, r ≤ s → tradeDC s ≤ tradeDC r) ∧
    (∀ oV rV : Nat, 0 < rV → tradeDCInt oV rV = tradeDC (tradeRatio oV rV)) := by
  refine ⟨fun h => ?_, fun h => ?_, fun h => ?_, fun h => ?_, fun s hs => ?_,
    fun oV rV hr => tradeDCInt_eq oV rV hr⟩
  · unfold tradeDC; rw [if_pos h]
  · unfold tradeDC
    rw [if_neg (by linarith [h.2]), if_pos h.1]
  · unfold tradeDC
    rw [if_neg (by linarith [h.2]), if_neg (by linarith [h.2]), if_pos h.1]
  · unfold tradeDC
    rw [if_neg (by linarith), if_neg (by linarith), if_neg (by linarith)]
  · unfold tradeDC
    split_ifs <;> first | rfl | omega | linarith

/-- Witness for C3: offering 30 gold for a 20-gold item (ratio 3/2) yields
DC 5; offering 10 gold for the same item (ratio 1/2) yields DC 20; and DC
at the larger ratio is no larger. -/
theorem tradeDC_thresholds_witness :
    tradeDC (tradeRatio 30 20) = 5 ∧ tradeDC (tradeRatio 10 20) = 20 ∧
    tradeDC (3/2) ≤ tradeDC (1/2) ∧
    tradeDCInt 30 20 = tradeDC (tradeRatio 30 20) := by
  have h1 : tradeRatio (30 : ℚ) 20 = 3/2 := by norm_num [tradeRatio]
  have h2 : tradeRatio (10 : ℚ) 20 = 1/2 := by norm_num [tradeRatio]
  refine ⟨?_, ?_, ?_, ?_⟩
  · rw [h1]; exact (tradeDC_thresholds (3/2)).1 (by norm_num)
  · rw [h2]; exact (tradeDC_thresholds (1/2)).2.2.2.1 (by norm_num)
  · exact (tradeDC_thresholds (1/2)).2.2.2.2.1 (3/2) (by norm_num)
  · exact (tradeDC_thresholds 1).2.2.2.2.2 30 20 (by decide)

/-- C4 counterexample: a miscellaneous-category item is valued at 10 gold
by the README's table, not 25 as the claim states. -/
theorem itemBaseValue_misc_not_25 :
    itemBaseValue
      { name := "trinket", category := "misc", description := "a bauble",
        properties := [] } = 10 ∧
    itemBaseValue
      { name := "trinket", category := "misc", description := "a bauble",
        properties := [] } ≠ 25 := by
  constructor <;> decide

/-- C4 amended: the base value is determined solely by category, with
weapon = 50, armor = 75, consumable = 20, misc = 10, and 25 gold for any
other (unknown) category. -/
theorem itemBaseValue_by_category (it : Item) :
    (it.category = "weapon" → itemBaseValue it = 50) ∧
    (it.category = "armor" → itemBaseValue it = 75) ∧
    (it.category = "consumable" → itemBaseValue it = 20) ∧
    (it.category = "misc" → itemBaseValue it = 10) ∧
    (it.category ≠ "weapon" → it.category ≠ "armor" →
      it.category ≠ "consumable" → it.category ≠ "misc" →
      itemBaseValue it = 25) ∧
    (∀ jt : Item, jt.category = it.category →
      itemBaseValue jt = itemBaseValue it) := by
  refine ⟨fun h => ?_, fun h => ?_, fun h => ?_, fun h => ?_,
    fun h1 h2 h3 h4 => ?_, fun jt h => ?_⟩ <;>
    simp [itemBaseValue, *]

/-- Witness for C4 amended: one concrete item per category band, plus
value depending only on the category. -/
theorem itemBaseValue_by_category_witness :
    itemBaseValue
      { name := "sword", category := "weapon", description := "",
        properties := [] } = 50 ∧
    itemBaseValue
      { name := "mail", category := "armor", description := "",
        properties := [] } = 75 ∧
    itemBaseValue
      { name := "potion", category := "consumable", description := "",
        properties := [] } = 20 ∧
    itemBaseValue
      { name := "rock", category := "misc", description := "",
        properties := [] } = 10 ∧
    itemBaseValue
      { name := "relic", category := "artifact", description := "",
        properties := [] } = 25 ∧
    itemBaseValue
      { name := "axe", category := "weapon", description := "heavy",
        properties := [] } =
      itemBaseValue
      { name := "sword", category := "weapon", description := "",
        properties := [] } := by
  refine ⟨(itemBaseValue_by_category _).1 rfl,
          (itemBaseValue_by_category _).2.1 rfl,
          (itemBaseValue_by_category _).2.2.1 rfl,
          (itemBaseValue_by_category _).2.2.2.1 rfl,
          (itemBaseValue_by_category _).2.2.2.2.1
            (by decide) (by decide) (by decide) (by decide),
          (itemBaseValue_by_category _).2.2.2.2.2 _ rfl⟩

/-- A single drawn roll lies in [1, d] when the die has at least one
face. -/
theorem rollOne_bounds (d s : Nat) (hd : 0 < d) :
    1 ≤ (rollOne d s).1 ∧ (rollOne d s).1 ≤ d := by
  have hlt : (lcgNext s).1 % d < d := Nat.mod_lt _ hd
  simp only [rollOne]
  omega

/-- Every roll drawn by `rollMany` lies in [1, d], and exactly `n` rolls
are drawn. -/
theorem rollMany_bounds (n d : Nat) (hd : 2 ≤ d) :
    ∀ s, (rollMany n d s).1.length = n ∧
      ∀ x ∈ (rollMany n d s).1, 1 ≤ x ∧ x ≤ d := by
  induction n with
  | zero => intro s; simp [rollMany]
  | succ k ih =>
    intro s
    simp only [rollMany]
    constructor
    · simp [(ih _).1]
    · intro x hx
      rcases List.mem_cons.mp hx with h | h
      · exact h ▸ rollOne_bounds d s (by omega)
      · exact (ih _).2 x h

/-- A list of naturals each in [1, d] has sum between its length and its
length times d. -/
theorem sum_bounds_of_mem_bounds (l : List Nat) (d : Nat)
    (h : ∀ x ∈ l, 1 ≤ x ∧ x ≤ d) :
    l.length ≤ l.sum ∧ l.sum ≤ l.length * d := by
  induction l with
  | nil => simp
  | cons a t ih =>
    have ha := h a (List.mem_cons_self a t)
    have ht := ih (fun x hx => h x (List.mem_cons_of_mem a hx))
    simp only [List.length_cons, List.sum_cons, Nat.succ_mul]
    omega

/-- C9: for count ≥ 1 and die size ≥ 2 the roller returns the individual
rolls, each in [1, d], with total equal to their sum plus the modifier, so
the total lies in [n + m, n·d + m]; for count < 1 or die size < 2 it fails
with the InvalidNotation error; and the output is a function of the dice
expression and the seed alone, so equal seeds reproduce identical totals
and roll sequences. -/
theorem rollDice_spec (e : DiceExpr) (seed : Nat) :
    (1 ≤ e.count ∧ 2 ≤ e.sides → ∃ r, rollDice e seed = .ok r ∧
      r.rolls.length = e.count ∧ (∀ x ∈ r.rolls, 1 ≤ x ∧ x ≤ e.sides) ∧
      r.total = (r.rolls.sum : Int) + e.modifier ∧
      (e.count : Int) + e.modifier ≤ r.total ∧
      r.total ≤ (e.count : Int) * (e.sides : Int) + e.modifier) ∧
    (e.count < 1 ∨ e.sides < 2 → rollDice e seed = .error .invalid) ∧
    (∀ r₁ r₂, rollDice e seed = .ok r₁ → rollDice e seed = .ok r₂ →
      r₁.total = r₂.total ∧ r₁.rolls = r₂.rolls) := by
  refine ⟨fun hv => ?_, fun hinv => ?_, fun r₁ r₂ h₁ h₂ => ?_⟩
  · have hbounds := rollMany_bounds e.count e.sides hv.2 seed
    have hsum := sum_bounds_of_mem_bounds (rollMany e.count e.sides seed).1
      e.sides hbounds.2
    refine ⟨{ rolls := (rollMany e.count e.sides seed).1,
              total := ((rollMany e.count e.sides seed).1.sum : Int) +
                e.modifier },
      ?_, hbounds.1, hbounds.2, rfl, ?_, ?_⟩
    · unfold rollDice
      rw [if_neg (by omega)]
    · have h1 := hsum.1
      rw [hbounds.1] at h1
      dsimp only
      omega
    · have h2 := hsum.2
      rw [hbounds.1] at h2
      have hcast : ((rollMany e.count e.sides seed).1.sum : Int) ≤
          (e.count : Int) * (e.sides : Int) := by exact_mod_cast h2
      dsimp only
      omega
  · unfold rollDice
    rw [if_pos (by omega)]
  · rw [h₁] at h₂
    cases h₂
    exact ⟨rfl, rfl⟩

/-- Witness for C9: rolling 2d6+3 from seed 1 yields a valid result in
[5, 15]; 0d6 is rejected as invalid; equal seeds agree. -/
theorem rollDice_spec_witness :
    (∃ r, rollDice ⟨2, 6, 3⟩ 1 = .ok r ∧
      r.rolls.length = 2 ∧ (∀ x ∈ r.rolls, 1 ≤ x ∧ x ≤ 6) ∧
      r.total = (r.rolls.sum : Int) + 3 ∧
      (2 : Int) + 3 ≤ r.total ∧ r.total ≤ (2 : Int) * 6 + 3) ∧
    rollDice ⟨0, 6, 0⟩ 1 = .error .invalid := by
  exact ⟨(rollDice_spec ⟨2, 6, 3⟩ 1).1 ⟨by decide, by decide⟩,
         (rollDice_spec ⟨0, 6, 0⟩ 1).2.1 (by decide)⟩

/-- Erasing the first item matching a successful search decreases each
name count by exactly the found item's contribution. -/
theorem countName_eraseP (inv : List Item) (nm : String) (it : Item)
    (h : inv.find? (fun i => i.name == nm) = some it) (q : String) :
    countName inv q =
      countName (inv.eraseP (fun i => i.name == nm)) q +
        (if it.name == q then 1 else 0) := by
  induction inv with
  | nil => simp at h
  | cons a t ih =>
    by_cases hpa : (a.name == nm) = true
    · simp only [List.find?_cons, hpa] at h
      injection h with h
      subst h
      simp only [countName, List.eraseP_cons, hpa, cond_true,
        List.countP_cons]
    · have hpf : (a.name == nm) = false := by simpa using hpa
      simp only [List.find?_cons, hpf] at h
      have hrec := ih h
      simp only [countName, List.eraseP_cons, hpf, cond_false,
        List.countP_cons] at hrec ⊢
      omega

/-- Successful extraction splits the inventory's name counts: the
extracted items carry exactly the listed names (with multiplicity) and the
remainder keeps the rest. -/
theorem extractItems_counts (names : List String) :
    ∀ inv got rem, extractItems inv names = some (got, rem) →
      ∀ q, countName inv q = countName rem q + names.count q ∧
        countName got q = names.count q := by
  induction names with
  | nil =>
    intro inv got rem h q
    simp only [extractItems, Option.some.injEq, Prod.mk.injEq] at h
    rw [← h.1, ← h.2]
    simp [countName]
  | cons nm rest ih =>
    intro inv got rem h q
    simp only [extractItems] at h
    cases hf : inv.find? (fun it => it.name == nm) with
    | none => rw [hf] at h; exact absurd h (by simp)
    | some it =>
      rw [hf] at h
      cases he : extractItems (inv.eraseP (fun i => i.name == nm)) rest with
      | none => rw [he] at h; exact absurd h (by simp)
      | some p =>
        obtain ⟨g2, r2⟩ := p
        rw [he] at h
        simp only [Option.some.injEq, Prod.mk.injEq] at h
        obtain ⟨h1, h2⟩ := h
        subst h1
        subst h2
        have hit : (it.name == nm) = true := by
          have hp := List.find?_some hf
          simpa using hp
        have hnm : it.name = nm := by simpa using hit
        have hcnt := countName_eraseP inv nm it hf q
        have hih := ih _ g2 r2 he q
        rw [List.count_cons]
        subst hnm
        constructor
        · simp only [countName, List.countP_cons] at hcnt hih ⊢
          omega
        · simp only [countName, List.countP_cons] at hcnt hih ⊢
          omega

/-- C2: a proposed trade is all-or-nothing. Validation failures
(InvalidTrade, InsufficientFunds, ItemNotFound) and refusals leave both
parties untouched, and a failed validation does not depend on the die at
all; an accepted trade moves the offered gold and items player→NPC and the
requested gold and items NPC→player in the one returned state, conserving
total gold and the multiset of item names across the two parties. -/
theorem proposeTrade_allOrNothing (player npc : Trader)
    (offer request : TradeOffer) (roll : Nat) :
    (∀ e, (proposeTrade player npc offer request roll).result = .error e →
      (proposeTrade player npc offer request roll).player = player ∧
      (proposeTrade player npc offer request roll).npc = npc ∧
      ∀ roll2, proposeTrade player npc offer request roll2 =
        proposeTrade player npc offer request roll) ∧
    (∀ o, (proposeTrade player npc offer request roll).result =
        .ok (.refused o) →
      (proposeTrade player npc offer request roll).player = player ∧
      (proposeTrade player npc offer request roll).npc = npc) ∧
    (∀ o, (proposeTrade player npc offer request roll).result =
        .ok (.accepted o) →
      offer.gold ≤ player.gold ∧ request.gold ≤ npc.gold ∧
      (proposeTrade player npc offer request roll).player.gold =
        player.gold - offer.gold + request.gold ∧
      (proposeTrade player npc offer request roll).npc.gold =
        npc.gold + offer.gold - request.gold ∧
      (proposeTrade player npc offer request roll).player.gold +
        (proposeTrade player npc offer request roll).npc.gold =
        player.gold + npc.gold ∧
      (∀ q,
        countName (proposeTrade player npc offer request roll).player.inventory
          q + offer.items.count q =
        countName player.inventory q + request.items.count q) ∧
      (∀ q,
        countName (proposeTrade player npc offer request roll).npc.inventory
          q + request.items.count q =
        countName npc.inventory q + offer.items.count q) ∧
      (∀ q,
        countName (proposeTrade player npc offer request roll).player.inventory
          q +
        countName (proposeTrade player npc offer request roll).npc.inventory
          q =
        countName player.inventory q + countName npc.inventory q)) := by
  cases hpo : extractItems player.inventory offer.items with
  | none =>
    refine ⟨fun e _ => ⟨?_, ?_, fun roll2 => ?_⟩, fun o ho => ?_, fun o ho => ?_⟩ <;>
      simp [proposeTrade, hpo] at *
  | some po =>
    obtain ⟨offItems, pRem⟩ := po
    cases hnr : extractItems npc.inventory request.items with
    | none =>
      refine ⟨fun e _ => ⟨?_, ?_, fun roll2 => ?_⟩, fun o ho => ?_, fun o ho => ?_⟩ <;>
        simp [proposeTrade, hpo, hnr] at *
    | some nr =>
      obtain ⟨reqItems, nRem⟩ := nr
      by_cases hz : request.gold + itemsValue reqItems = 0
      · refine ⟨fun e _ => ⟨?_, ?_, fun roll2 => ?_⟩, fun o ho => ?_, fun o ho => ?_⟩ <;>
          simp [proposeTrade, hpo, hnr, hz] at *
      · by_cases hpg : player.gold < offer.gold
        · refine ⟨fun e _ => ⟨?_, ?_, fun roll2 => ?_⟩, fun o ho => ?_, fun o ho => ?_⟩ <;>
            simp [proposeTrade, hpo, hnr, hz, hpg] at *
        · by_cases hng : npc.gold < request.gold
          · refine ⟨fun e _ => ⟨?_, ?_, fun roll2 => ?_⟩, fun o ho => ?_, fun o ho => ?_⟩ <;>
              simp [proposeTrade, hpo, hnr, hz, hpg, hng] at *
          · by_cases hpass :
              (resolveSkillCheck roll npc.charisma
                (tradeDCInt (offer.gold + itemsValue offItems)
                  (request.gold + itemsValue reqItems))).passes = true
            · have hred : proposeTrade player npc offer request roll =
                  ⟨.ok (.accepted (resolveSkillCheck roll npc.charisma
                      (tradeDCInt (offer.gold + itemsValue offItems)
                        (request.gold + itemsValue reqItems)))),
                   ⟨player.gold - offer.gold + request.gold,
                    pRem ++ reqItems, player.charisma⟩,
                   ⟨npc.gold + offer.gold - request.gold,
                    nRem ++ offItems, npc.charisma⟩⟩ := by
                simp [proposeTrade, hpo, hnr, hz, hpg, hng, hpass]
              rw [hred]
              refine ⟨fun e he => by simp at he, fun o ho => by simp at ho,
                fun o ho => ?_⟩
              have hpcnt := extractItems_counts offer.items
                player.inventory offItems pRem hpo
              have hncnt := extractItems_counts request.items
                npc.inventory reqItems nRem hnr
              refine ⟨by omega, by omega, rfl, rfl, by simp; omega,
                fun q => ?_, fun q => ?_, fun q => ?_⟩ <;>
                have hpq := hpcnt q <;> have hnq := hncnt q <;>
                simp only [countName, List.countP_append] at hpq hnq ⊢ <;>
                omega
            · have hred : proposeTrade player npc offer request roll =
                  ⟨.ok (.refused (resolveSkillCheck roll npc.charisma
                      (tradeDCInt (offer.gold + itemsValue offItems)
                        (request.gold + itemsValue reqItems)))),
                   player, npc⟩ := by
                simp [proposeTrade, hpo, hnr, hz, hpg, hng, hpass]
              rw [hred]
              exact ⟨fun e he => by simp at he, fun o ho => ⟨rfl, rfl⟩,
                fun o ho => by simp at ho⟩

/-- Witness for C2: trading 10 gold for the merchant's potion (value 20,
ratio 1/2) with a natural 20 moves the gold and the potion atomically; a
zero-value request is rejected unchanged and independently of the die; a
natural 5 (check fails against DC 20) refuses the trade unchanged. -/
theorem proposeTrade_allOrNothing_witness :
    (proposeTrade samplePlayer sampleNpc ⟨10, []⟩ ⟨0, ["potion"]⟩
      20).player.gold = 20 ∧
    (proposeTrade samplePlayer sampleNpc ⟨10, []⟩ ⟨0, ["potion"]⟩
      20).npc.gold = 60 ∧
    countName (proposeTrade samplePlayer sampleNpc ⟨10, []⟩ ⟨0, ["potion"]⟩
        20).player.inventory "potion" +
      countName (proposeTrade samplePlayer sampleNpc ⟨10, []⟩
        ⟨0, ["potion"]⟩ 20).npc.inventory "potion" =
      countName samplePlayer.inventory "potion" +
        countName sampleNpc.inventory "potion" ∧
    (proposeTrade samplePlayer sampleNpc ⟨10, []⟩ ⟨0, []⟩ 20).player =
      samplePlayer ∧
    proposeTrade samplePlayer sampleNpc ⟨10, []⟩ ⟨0, []⟩ 1 =
      proposeTrade samplePlayer sampleNpc ⟨10, []⟩ ⟨0, []⟩ 20 ∧
    (proposeTrade samplePlayer sampleNpc ⟨10, []⟩ ⟨0, ["potion"]⟩
      5).player = samplePlayer ∧
    (proposeTrade samplePlayer sampleNpc ⟨10, []⟩ ⟨0, ["potion"]⟩
      5).npc = sampleNpc := by
  have hacc := (proposeTrade_allOrNothing samplePlayer sampleNpc ⟨10, []⟩
    ⟨0, ["potion"]⟩ 20).2.2 CheckOutcome.CriticalSuccess (by decide)
  have herr := (proposeTrade_allOrNothing samplePlayer sampleNpc ⟨10, []⟩
    ⟨0, []⟩ 20).1 TradeError.InvalidTrade (by decide)
  have href := (proposeTrade_allOrNothing samplePlayer sampleNpc ⟨10, []⟩
    ⟨0, ["potion"]⟩ 5).2.1 CheckOutcome.Failure (by decide)
  refine ⟨?_, ?_, hacc.2.2.2.2.2.2.2 "potion", herr.1, herr.2.2 1,
    href.1, href.2⟩
  · rw [hacc.2.2.1]; decide
  · rw [hacc.2.2.2.1]; decide

/-- The end-of-action check never produces a command error. -/
theorem endOfAction_no_error (s : GameSession) (cs : CombatState)
    (e : CmdError) : (endOfAction s cs).result ≠ .error e := by
  unfold endOfAction
  split_ifs <;> simp

/-- When the end-of-action check reports a terminal outcome, the session
it returns is back in Exploration with no combat state. -/
theorem endOfAction_ended (s : GameSession) (cs : CombatState)
    (o : CombatOutcome) (h : (endOfAction s cs).result = .ok (.ended o)) :
    (endOfAction s cs).session.mode = .Exploration ∧
    (endOfAction s cs).session.combat = none := by
  unfold endOfAction at h ⊢
  split_ifs at h ⊢ <;> simp_all

/-- C8: `submit_combat_action` outside Combat mode and `start_combat`
outside Exploration mode fail with WrongMode and leave the session
exactly as it was; more generally every rejected orchestrator command
(any error result) returns the session unchanged. -/
theorem wrongMode_rejected (s : GameSession) (a : CombatAction)
    (roll dmgRoll : Nat) (ps : List Combatant) :
    (s.mode ≠ .Combat →
      submitCombatAction s a roll dmgRoll = ⟨.error .WrongMode, s⟩) ∧
    (s.mode ≠ .Exploration →
      startCombat s ps = ⟨.error .WrongMode, s⟩) ∧
    (∀ e, (submitCombatAction s a roll dmgRoll).result = .error e →
      (submitCombatAction s a roll dmgRoll).session = s) ∧
    (∀ e, (startCombat s ps).result = .error e →
      (startCombat s ps).session = s) := by
  refine ⟨fun h => ?_, fun h => ?_, fun e he => ?_, fun e he => ?_⟩
  · cases hm : s.mode with
    | Combat => exact absurd hm h
    | CharacterCreation => simp [submitCombatAction, hm]
    | Exploration => simp [submitCombatAction, hm]
  · simp [startCombat, h]
  · cases hm : s.mode with
    | CharacterCreation => simp [submitCombatAction, hm]
    | Exploration => simp [submitCombatAction, hm]
    | Combat =>
      cases hc : s.combat with
      | none => simp [submitCombatAction, hm, hc]
      | some cs =>
        cases a with
        | flee =>
          by_cases hp :
            (resolveSkillCheck roll (playerDexMod cs) escapeDC).passes = true
          · simp [submitCombatAction, hm, hc, hp] at he
          · simp [submitCombatAction, hm, hc, hp] at he
        | defend =>
          rw [show submitCombatAction s CombatAction.defend roll dmgRoll =
              endOfAction s
                { cs with participants :=
                            setDefending cs.participants
                              cs.currentTurnIndex } by
            simp [submitCombatAction, hm, hc]] at he
          exact absurd he (endOfAction_no_error _ _ e)
        | attack target =>
          cases hf : cs.participants.find?
              (fun p => !p.isPlayer && p.name == target) with
          | none => simp [submitCombatAction, hm, hc, hf]
          | some tgt =>
            rw [show submitCombatAction s (.attack target) roll dmgRoll =
                endOfAction s
                  { cs with participants :=
                              attackedParticipants cs target tgt roll
                                dmgRoll } by
              simp [submitCombatAction, hm, hc, hf]] at he
            exact absurd he (endOfAction_no_error _ _ e)
  · unfold startCombat at he ⊢
    split_ifs at he ⊢
    simp_all

/-- Witness for C8: a flee command in an Exploration session is rejected
with WrongMode and the session is unchanged; starting combat from a
Combat-mode session is likewise rejected unchanged. -/
theorem wrongMode_rejected_witness :
    submitCombatAction sampleExploreSession CombatAction.flee 5 3 =
      ⟨.error .WrongMode, sampleExploreSession⟩ ∧
    startCombat sampleCombatSession [samplePC, sampleGoblin] =
      ⟨.error .WrongMode, sampleCombatSession⟩ ∧
    (submitCombatAction sampleExploreSession CombatAction.flee 5 3).session =
      sampleExploreSession := by
  refine ⟨(wrongMode_rejected sampleExploreSession CombatAction.flee 5 3
      []).1 (by decide),
    (wrongMode_rejected sampleCombatSession CombatAction.flee 5 3
      [samplePC, sampleGoblin]).2.1 (by decide),
    (wrongMode_rejected sampleExploreSession CombatAction.flee 5 3
      []).2.2.1 CmdError.WrongMode (by decide)⟩

/-- C7: whenever a combat action reports a terminal outcome (Victory,
Defeat or Fled) the returned session is back in Exploration with the
combat state discarded, in the same call; a successful flee ends combat
with Fled and the player record untouched (zero loot) no matter the
enemies' health, and a failed flee only advances the turn. -/
theorem combat_terminal_to_exploration (s : GameSession) (a : CombatAction)
    (roll dmgRoll : Nat) :
    (∀ o, (submitCombatAction s a roll dmgRoll).result = .ok (.ended o) →
      (submitCombatAction s a roll dmgRoll).session.mode = .Exploration ∧
      (submitCombatAction s a roll dmgRoll).session.combat = none) ∧
    (∀ cs, s.mode = .Combat → s.combat = some cs →
      (resolveSkillCheck roll (playerDexMod cs) escapeDC).passes = true →
      submitCombatAction s CombatAction.flee roll dmgRoll =
        ⟨.ok (.ended .Fled),
         { s with mode := .Exploration, combat := none }⟩) ∧
    (∀ cs, s.mode = .Combat → s.combat = some cs →
      (resolveSkillCheck roll (playerDexMod cs) escapeDC).passes = false →
      submitCombatAction s CombatAction.flee roll dmgRoll =
        ⟨.ok .turnDone, { s with combat := some (advanceTurn cs) }⟩) := by
  refine ⟨fun o ho => ?_, fun cs hm hc hp => ?_, fun cs hm hc hp => ?_⟩
  · cases hm : s.mode with
    | CharacterCreation => simp [submitCombatAction, hm] at ho
    | Exploration => simp [submitCombatAction, hm] at ho
    | Combat =>
      cases hc : s.combat with
      | none => simp [submitCombatAction, hm, hc] at ho
      | some cs =>
        cases a with
        | flee =>
          by_cases hp :
            (resolveSkillCheck roll (playerDexMod cs) escapeDC).passes = true
          · simp [submitCombatAction, hm, hc, hp]
          · simp [submitCombatAction, hm, hc, hp] at ho
        | defend =>
          have hred : submitCombatAction s CombatAction.defend roll dmgRoll =
              endOfAction s
                { cs with participants :=
                            setDefending cs.participants
                              cs.currentTurnIndex } := by
            simp [submitCombatAction, hm, hc]
          rw [hred] at ho ⊢
          exact endOfAction_ended _ _ o ho
        | attack target =>
          cases hf : cs.participants.find?
              (fun p => !p.isPlayer && p.name == target) with
          | none => simp [submitCombatAction, hm, hc, hf] at ho
          | some tgt =>
            have hred : submitCombatAction s (.attack target) roll dmgRoll =
                endOfAction s
                  { cs with participants :=
                              attackedParticipants cs target tgt roll
                                dmgRoll } := by
              simp [submitCombatAction, hm, hc, hf]
            rw [hred] at ho ⊢
            exact endOfAction_ended _ _ o ho
  · simp [submitCombatAction, hm, hc, hp]
  · simp [submitCombatAction, hm, hc, hp]

/-- Witness for C7: in the sample combat a natural 20 flee ends combat as
Fled in Exploration with the goblin still standing and no loot; a natural
1 flee keeps the session in Combat with only the turn advanced. -/
theorem combat_terminal_to_exploration_witness :
    submitCombatAction sampleCombatSession CombatAction.flee 20 0 =
      ⟨.ok (.ended .Fled),
       { sampleCombatSession with mode := .Exploration, combat := none }⟩ ∧
    (∀ cs, sampleCombatSession.combat = some cs →
      submitCombatAction sampleCombatSession CombatAction.flee 1 0 =
        ⟨.ok .turnDone,
         { sampleCombatSession with combat := some (advanceTurn cs) }⟩) ∧
    (submitCombatAction sampleCombatSession CombatAction.flee 20
      0).session.mode = .Exploration := by
  refine ⟨?_, fun cs hc => ?_, ?_⟩
  · exact (combat_terminal_to_exploration sampleCombatSession
      CombatAction.flee 20 0).2.1 ⟨1, 0, [samplePC, sampleGoblin]⟩
      rfl rfl (by decide)
  · have h3 : (some (⟨1, 0, [samplePC, sampleGoblin]⟩ : CombatState)) =
        some cs := by
      rw [← hc]; rfl
    have hcs : cs = ⟨1, 0, [samplePC, sampleGoblin]⟩ :=
      (Option.some.inj h3).symm
    subst hcs
    exact (combat_terminal_to_exploration sampleCombatSession
      CombatAction.flee 1 0).2.2 ⟨1, 0, [samplePC, sampleGoblin]⟩
      rfl rfl (by decide)
  · exact ((combat_terminal_to_exploration sampleCombatSession
      CombatAction.flee 20 0).1 CombatOutcome.Fled (by decide)).1

/-- Soundness of the fuel-bounded scan: a found index is at or after the
start, holds a standing participant, and every index skipped on the way
holds a defeated one. -/
theorem findAliveAux_some (ps : List Combatant) :
    ∀ fuel k j, findAliveAux ps k fuel = some j →
      k ≤ j ∧ (∃ p, ps[j]? = some p ∧ 0 < p.hp) ∧
        ∀ i, k ≤ i → i < j → ∃ p, ps[i]? = some p ∧ p.hp = 0 := by
  intro fuel
  induction fuel with
  | zero => intro k j h; simp [findAliveAux] at h
  | succ f ih =>
    intro k j h
    simp only [findAliveAux] at h
    cases hk : ps[k]? with
    | none => rw [hk] at h; exact absurd h (by simp)
    | some p =>
      rw [hk] at h
      dsimp only at h
      by_cases hp : 0 < p.hp
      · rw [if_pos hp] at h
        injection h with h
        subst h
        exact ⟨le_refl _, ⟨p, hk, hp⟩,
          fun i h1 h2 => absurd h2 (by omega)⟩
      · rw [if_neg hp] at h
        obtain ⟨h1, h2, h3⟩ := ih (k + 1) j h
        refine ⟨by omega, h2, fun i hi1 hi2 => ?_⟩
        rcases Nat.eq_or_lt_of_le hi1 with heq | hlt
        · exact ⟨p, heq ▸ hk, by omega⟩
        · exact h3 i (by omega) hi2

/-- Completeness of the fuel-bounded scan: it finds an index whenever some
index in its range holds a standing participant. -/
theorem findAliveAux_some_of_alive (ps : List Combatant) :
    ∀ fuel k, (∃ i p, k ≤ i ∧ i < k + fuel ∧ ps[i]? = some p ∧ 0 < p.hp) →
      ∃ j, findAliveAux ps k fuel = some j := by
  intro fuel
  induction fuel with
  | zero =>
    intro k h
    obtain ⟨i, p, h1, h2, _, _⟩ := h
    exact absurd h2 (by omega)
  | succ f ih =>
    intro k h
    obtain ⟨i, p, h1, h2, h3, h4⟩ := h
    simp only [findAliveAux]
    cases hk : ps[k]? with
    | none =>
      have hlen : ps.length ≤ k := by
        simpa using List.getElem?_eq_none_iff.mp hk
      have hilen : i < ps.length := (List.getElem?_eq_some.mp h3).1
      exact absurd hilen (by omega)
    | some q =>
      dsimp only
      by_cases hq : 0 < q.hp
      · rw [if_pos hq]; exact ⟨k, rfl⟩
      · rw [if_neg hq]
        apply ih (k + 1)
        rcases Nat.eq_or_lt_of_le h1 with heq | hlt
        · exfalso
          rw [← heq, hk] at h3
          injection h3 with h3
          subst h3
          exact hq h4
        · exact ⟨i, p, by omega, by omega, h3, h4⟩

/-- Soundness of `findAlive` on its full fuel. -/
theorem findAlive_some (ps : List Combatant) (k j : Nat)
    (h : findAlive ps k = some j) :
    k ≤ j ∧ (∃ p, ps[j]? = some p ∧ 0 < p.hp) ∧
      ∀ i, k ≤ i → i < j → ∃ p, ps[i]? = some p ∧ p.hp = 0 :=
  findAliveAux_some ps _ k j h

/-- Completeness of `findAlive`: a standing participant at or after the
start index guarantees a find. -/
theorem findAlive_of_alive (ps : List Combatant) (k : Nat)
    (h : ∃ i p, k ≤ i ∧ ps[i]? = some p ∧ 0 < p.hp) :
    ∃ j, findAlive ps k = some j := by
  obtain ⟨i, p, h1, h2, h3⟩ := h
  apply findAliveAux_some_of_alive
  have hilen : i < ps.length := (List.getElem?_eq_some.mp h2).1
  exact ⟨i, p, h1, by omega, h2, h3⟩

/-- A standing member of the list is standing at some index. -/
theorem exists_index_of_mem_alive (ps : List Combatant)
    (h : ∃ p, p ∈ ps ∧ 0 < p.hp) :
    ∃ (i : Nat) (p : Combatant), ps[i]? = some p ∧ 0 < p.hp := by
  obtain ⟨p, hmem, hp⟩ := h
  obtain ⟨n, hn, he⟩ := List.getElem_of_mem hmem
  refine ⟨n, p, ?_, hp⟩
  rw [List.getElem?_eq_some]
  exact ⟨hn, he⟩

/-- Inserting into the initiative order adds exactly one entry. -/
theorem orderedInsert_length (a : Combatant) (l : List Combatant) :
    (orderedInsert a l).length = l.length + 1 := by
  induction l with
  | nil => rfl
  | cons b t ih =>
    by_cases h : initPrec a b = true
    · simp [orderedInsert, h]
    · simp [orderedInsert, h, ih]

/-- Membership in an initiative insertion comes from the inserted element
or the original list. -/
theorem orderedInsert_mem (a x : Combatant) (l : List Combatant)
    (h : x ∈ orderedInsert a l) : x = a ∨ x ∈ l := by
  induction l with
  | nil => simpa [orderedInsert] using h
  | cons b t ih =>
    by_cases hb : initPrec a b = true
    · simp only [orderedInsert, hb, if_true] at h
      simpa using h
    · simp only [orderedInsert, hb, if_false] at h
      rcases List.mem_cons.mp h with h2 | h2
      · exact Or.inr (h2 ▸ List.mem_cons_self b t)
      · rcases ih h2 with h3 | h3
        · exact Or.inl h3
        · exact Or.inr (List.mem_cons_of_mem b h3)

/-- The initiative sort preserves length. -/
theorem sortByInitiative_length (l : List Combatant) :
    (sortByInitiative l).length = l.length := by
  induction l with
  | nil => rfl
  | cons a t ih =>
    show (orderedInsert a (sortByInitiative t)).length = t.length + 1
    rw [orderedInsert_length, ih]

/-- The initiative sort produces no new participants. -/
theorem sortByInitiative_mem (x : Combatant) (l : List Combatant)
    (h : x ∈ sortByInitiative l) : x ∈ l := by
  induction l with
  | nil => simp [sortByInitiative] at h
  | cons a t ih =>
    rcases orderedInsert_mem a x _ h with h2 | h2
    · exact h2 ▸ List.mem_cons_self a t
    · exact List.mem_cons_of_mem a (ih h2)

/-- What the turn advance does: it never touches the participant list, it
lands on a standing participant whenever one exists, a within-round find
keeps the round, and a wrap increments it. -/
theorem advanceTurn_spec (cs : CombatState) :
    (advanceTurn cs).participants = cs.participants ∧
    ((∃ p, p ∈ cs.participants ∧ 0 < p.hp) → TurnInv (advanceTurn cs)) ∧
    (∀ j, findAlive cs.participants (cs.currentTurnIndex + 1) = some j →
      (advanceTurn cs).round = cs.round ∧
      (advanceTurn cs).currentTurnIndex = j) ∧
    (findAlive cs.participants (cs.currentTurnIndex + 1) = none →
      ∀ j, findAlive cs.participants 0 = some j →
      (advanceTurn cs).round = cs.round + 1 ∧
      (advanceTurn cs).currentTurnIndex = j) := by
  unfold advanceTurn
  cases h1 : findAlive cs.participants (cs.currentTurnIndex + 1) with
  | some j =>
    refine ⟨rfl, fun _ => ?_, fun j2 hj2 => ?_, fun hn => absurd hn (by simp)⟩
    · obtain ⟨_, ⟨p, hp1, hp2⟩, _⟩ := findAlive_some _ _ _ h1
      exact ⟨p, hp1, hp2⟩
    · injection hj2 with hj2
      subst hj2
      exact ⟨rfl, rfl⟩
  | none =>
    cases h2 : findAlive cs.participants 0 with
    | some j =>
      refine ⟨rfl, fun _ => ?_, fun j2 hj2 => absurd hj2 (by simp),
        fun _ j2 hj2 => ?_⟩
      · obtain ⟨_, ⟨p, hp1, hp2⟩, _⟩ := findAlive_some _ _ _ h2
        exact ⟨p, hp1, hp2⟩
      · injection hj2 with hj2
        subst hj2
        exact ⟨rfl, rfl⟩
    | none =>
      refine ⟨rfl, fun halive => ?_, fun j2 hj2 => absurd hj2 (by simp),
        fun _ j2 hj2 => absurd hj2 (by simp)⟩
      exfalso
      obtain ⟨i, p, hip, hp⟩ :=
        exists_index_of_mem_alive cs.participants halive
      obtain ⟨j, hj⟩ := findAlive_of_alive cs.participants 0
        ⟨i, p, Nat.zero_le i, hip, hp⟩
      rw [h2] at hj
      exact absurd hj (by simp)

/-- When the end-of-action check leaves combat running, the stored state
is the turn advance of its input and some participant was standing. -/
theorem endOfAction_combat_some (s : GameSession) (cs cs2 : CombatState)
    (h : (endOfAction s cs).session.combat = some cs2) :
    cs2 = advanceTurn cs ∧ ∃ p, p ∈ cs.participants ∧ 0 < p.hp := by
  unfold endOfAction at h
  split_ifs at h with h1 h2
  simp only at h
  injection h with h
  refine ⟨h.symm, ?_⟩
  have h3 : ∃ p, p ∈ cs.participants ∧ (p.isPlayer || p.hp == 0) = false := by
    by_contra hall
    push_neg at hall
    apply h1
    simp only [allEnemiesDown, List.all_eq_true]
    intro p hp
    cases hb : (p.isPlayer || p.hp == 0) with
    | true => rfl
    | false => exact absurd hb (hall p hp)
  obtain ⟨p, hmem, hcond⟩ := h3
  have hcond2 : p.isPlayer = false ∧ ¬p.hp = 0 := by
    simpa using hcond
  exact ⟨p, hmem, by omega⟩

/-- C6: combat starts at round 1 pointing at index 0; with every starting
participant standing the turn invariant holds at initialization; the turn
advance never changes the participant list (so initiative is never
re-rolled), lands on a standing participant whenever one exists, skips
exactly the defeated participants, and increments the round exactly when
the scan wraps past the end of the order; and every combat command that
leaves a combat state in the session preserves the turn invariant. -/
theorem combat_turn_invariant (ps : List Combatant) (cs : CombatState)
    (s : GameSession) (a : CombatAction) (roll dmgRoll : Nat) :
    (initializeCombat ps).round = 1 ∧
    (initializeCombat ps).currentTurnIndex = 0 ∧
    ((ps ≠ [] ∧ ∀ p ∈ ps, 0 < p.hp) → TurnInv (initializeCombat ps)) ∧
    (advanceTurn cs).participants = cs.participants ∧
    ((∃ p, p ∈ cs.participants ∧ 0 < p.hp) → TurnInv (advanceTurn cs)) ∧
    (∀ j, findAlive cs.participants (cs.currentTurnIndex + 1) = some j →
      (advanceTurn cs).round = cs.round ∧
      (advanceTurn cs).currentTurnIndex = j ∧
      ∀ i, cs.currentTurnIndex + 1 ≤ i → i < j →
        ∃ p, cs.participants[i]? = some p ∧ p.hp = 0) ∧
    (findAlive cs.participants (cs.currentTurnIndex + 1) = none →
      ∀ j, findAlive cs.participants 0 = some j →
      (advanceTurn cs).round = cs.round + 1 ∧
      (advanceTurn cs).currentTurnIndex = j) ∧
    (TurnInv cs → s.mode = .Combat → s.combat = some cs →
      ∀ cs2, (submitCombatAction s a roll dmgRoll).session.combat =
        some cs2 → TurnInv cs2) := by
  refine ⟨rfl, rfl, fun hstart => ?_, (advanceTurn_spec cs).1,
    (advanceTurn_spec cs).2.1, fun j hj => ?_, (advanceTurn_spec cs).2.2.2,
    fun hinv hm hc cs2 h2 => ?_⟩
  · obtain ⟨hne, hall⟩ := hstart
    have hlen : 0 < (sortByInitiative ps).length := by
      rw [sortByInitiative_length]
      exact List.length_pos.mpr hne
    refine ⟨(sortByInitiative ps).get ⟨0, hlen⟩, ?_, ?_⟩
    · rw [List.getElem?_eq_some]
      exact ⟨hlen, rfl⟩
    · exact hall _ (sortByInitiative_mem _ ps (List.get_mem _ 0 hlen))
  · obtain ⟨ha, hb⟩ := (advanceTurn_spec cs).2.2.1 j hj
    exact ⟨ha, hb, (findAlive_some cs.participants _ j hj).2.2⟩
  · have halive : ∃ p, p ∈ cs.participants ∧ 0 < p.hp := by
      obtain ⟨p, hp1, hp2⟩ := hinv
      exact ⟨p, List.getElem?_mem hp1, hp2⟩
    cases a with
    | flee =>
      by_cases hp :
        (resolveSkillCheck roll (playerDexMod cs) escapeDC).passes = true
      · simp [submitCombatAction, hm, hc, hp] at h2
      · simp only [submitCombatAction, hm, hc, hp] at h2
        simp at h2
        exact h2 ▸ (advanceTurn_spec cs).2.1 halive
    | defend =>
      have hred : submitCombatAction s CombatAction.defend roll dmgRoll =
          endOfAction s
            { cs with participants :=
                        setDefending cs.participants
                          cs.currentTurnIndex } := by
        simp [submitCombatAction, hm, hc]
      rw [hred] at h2
      obtain ⟨heq, halive2⟩ := endOfAction_combat_some _ _ _ h2
      exact heq ▸ (advanceTurn_spec _).2.1 halive2
    | attack target =>
      cases hf : cs.participants.find?
          (fun p => !p.isPlayer && p.name == target) with
      | none =>
        simp only [submitCombatAction, hm, hc, hf] at h2
        simp at h2
        exact h2 ▸ hinv
      | some tgt =>
        have hred : submitCombatAction s (.attack target) roll dmgRoll =
            endOfAction s
              { cs with participants :=
                          attackedParticipants cs target tgt roll
                            dmgRoll } := by
          simp [submitCombatAction, hm, hc, hf]
        rw [hred] at h2
        obtain ⟨heq, halive2⟩ := endOfAction_combat_some _ _ _ h2
        exact heq ▸ (advanceTurn_spec _).2.1 halive2

/-- Witness for C6: initializing combat with the sample pair starts at
round 1 with a standing participant at index 0; advancing the turn from
the player lands on the goblin (index 1) in the same round with the
participant list intact; and the failed-flee command keeps the turn
invariant. -/
theorem combat_turn_invariant_witness :
    TurnInv (initializeCombat [samplePC, sampleGoblin]) ∧
    (initializeCombat [samplePC, sampleGoblin]).round = 1 ∧
    (advanceTurn ⟨1, 0, [samplePC, sampleGoblin]⟩).participants =
      [samplePC, sampleGoblin] ∧
    (advanceTurn ⟨1, 0, [samplePC, sampleGoblin]⟩).round = 1 ∧
    (advanceTurn ⟨1, 0, [samplePC, sampleGoblin]⟩).currentTurnIndex = 1 ∧
    ∀ cs2, (submitCombatAction sampleCombatSession CombatAction.flee 1
      0).session.combat = some cs2 → TurnInv cs2 := by
  have h := combat_turn_invariant [samplePC, sampleGoblin]
    ⟨1, 0, [samplePC, sampleGoblin]⟩ sampleCombatSession
    CombatAction.flee 1 0
  refine ⟨h.2.2.1 ⟨by decide, by decide⟩, h.1, h.2.2.2.1, ?_, ?_,
    fun cs2 h2 => ?_⟩
  · exact (h.2.2.2.2.2.1 1 (by decide)).1
  · exact (h.2.2.2.2.2.1 1 (by decide)).2.1
  · exact h.2.2.2.2.2.2.2 ⟨samplePC, by decide, by decide⟩ rfl rfl cs2 h2

/-- Name counts over the concatenation of the enemies' inventories sum
the per-enemy counts. -/
theorem countName_enemies_foldr (L : List Combatant) (q : String) :
    countName (L.foldr (fun e acc => e.inventory ++ acc) []) q =
      (L.map (fun e => countName e.inventory q)).sum := by
  induction L with
  | nil => simp [countName]
  | cons e t ih =>
    simp only [List.foldr_cons, List.map_cons, List.sum_cons, countName,
      List.countP_append] at ih ⊢
    omega

/-- The loot transfer adds every listed enemy's gold to the player and
appends their inventories, name count by name count. -/
theorem lootTransfer_spec (pl : PlayerRecord) (es : List Combatant) :
    (lootTransfer pl es).gold = pl.gold + (es.map Combatant.gold).sum ∧
    ∀ q, countName (lootTransfer pl es).inventory q =
      countName pl.inventory q +
        (es.map (fun e => countName e.inventory q)).sum := by
  refine ⟨rfl, fun q => ?_⟩
  have h2 : (lootTransfer pl es).inventory =
      pl.inventory ++ es.foldr (fun e acc => e.inventory ++ acc) [] := rfl
  have h3 := countName_enemies_foldr es q
  rw [h2]
  simp only [countName, List.countP_append] at h3 ⊢
  omega

/-- Mapping a function that keeps the hostile flag, the gold and the
inventory of every participant leaves the hostile gold and inventory
sequences unchanged. -/
theorem filter_map_preserve (f : Combatant → Combatant)
    (hf : ∀ p, (f p).isPlayer = p.isPlayer ∧ (f p).gold = p.gold ∧
      (f p).inventory = p.inventory) (ps : List Combatant) :
    (((ps.map f).filter (fun p => !p.isPlayer)).map Combatant.gold =
      ((ps.filter (fun p => !p.isPlayer)).map Combatant.gold)) ∧
    (((ps.map f).filter (fun p => !p.isPlayer)).map Combatant.inventory =
      ((ps.filter (fun p => !p.isPlayer)).map Combatant.inventory)) := by
  induction ps with
  | nil => exact ⟨rfl, rfl⟩
  | cons a t ih =>
    obtain ⟨h1, h2, h3⟩ := hf a
    simp only [List.map_cons, List.filter_cons, h1]
    by_cases hip : (!a.isPlayer) = true
    · simp only [hip, if_true, List.map_cons, h2, h3, ih.1, ih.2]
      exact ⟨by trivial, by trivial⟩
    · simp only [hip, if_false]
      exact ih

/-- Raising a defending flag keeps the hostile gold and inventory
sequences unchanged. -/
theorem setDefending_filter_fields :
    ∀ (ps : List Combatant) (n : Nat),
    (((setDefending ps n).filter (fun p => !p.isPlayer)).map
      Combatant.gold =
      ((ps.filter (fun p => !p.isPlayer)).map Combatant.gold)) ∧
    (((setDefending ps n).filter (fun p => !p.isPlayer)).map
      Combatant.inventory =
      ((ps.filter (fun p => !p.isPlayer)).map Combatant.inventory)) := by
  intro ps
  induction ps with
  | nil => intro n; exact ⟨rfl, rfl⟩
  | cons a t ih =>
    intro n
    cases n with
    | zero =>
      simp only [setDefending, List.filter_cons]
      by_cases hip : (!a.isPlayer) = true
      · simp only [hip, if_true, List.map_cons]
        exact ⟨by trivial, by trivial⟩
      · simp only [hip, if_false]
        exact ⟨rfl, rfl⟩
    | succ m =>
      simp only [setDefending, List.filter_cons]
      by_cases hip : (!a.isPlayer) = true
      · simp only [hip, if_true, List.map_cons, (ih m).1, (ih m).2]
        exact ⟨by trivial, by trivial⟩
      · simp only [hip, if_false]
        exact ih m

/-- When the end-of-action check reports Victory, the returned session
has no combat state and its player is the loot transfer over the
hostiles. -/
theorem endOfAction_victory (s : GameSession) (cs : CombatState)
    (hv : (endOfAction s cs).result = .ok (.ended .Victory)) :
    (endOfAction s cs).session.combat = none ∧
    (endOfAction s cs).session.player =
      lootTransfer s.player (hostiles cs) := by
  unfold endOfAction at hv ⊢
  split_ifs at hv ⊢
  · exact ⟨rfl, rfl⟩
  · exact absurd hv (by simp)
  · exact absurd hv (by simp)

/-- Equal inventory sequences give equal per-enemy name counts. -/
theorem map_countName_of_map_inventory (L1 L2 : List Combatant)
    (q : String)
    (h : L1.map Combatant.inventory = L2.map Combatant.inventory) :
    L1.map (fun e => countName e.inventory q) =
      L2.map (fun e => countName e.inventory q) := by
  have e1 : ∀ (L : List Combatant),
      L.map (fun e => countName e.inventory q) =
        (L.map Combatant.inventory).map (fun inv => countName inv q) :=
    fun L => by rw [List.map_map]; rfl
  rw [e1, e1, h]

/-- Resolving an attack leaves every hostile's gold and inventory
untouched (only health changes). -/
theorem attackedParticipants_filter_fields (cs : CombatState)
    (target : String) (tgt : Combatant) (roll dmgRoll : Nat) :
    (((attackedParticipants cs target tgt roll dmgRoll).filter
        (fun p => !p.isPlayer)).map Combatant.gold =
      ((cs.participants.filter (fun p => !p.isPlayer)).map
        Combatant.gold)) ∧
    (((attackedParticipants cs target tgt roll dmgRoll).filter
        (fun p => !p.isPlayer)).map Combatant.inventory =
      ((cs.participants.filter (fun p => !p.isPlayer)).map
        Combatant.inventory)) := by
  unfold attackedParticipants
  have key : ∀ dmg,
      (((damageTarget cs.participants target dmg).filter
          (fun p => !p.isPlayer)).map Combatant.gold =
        ((cs.participants.filter (fun p => !p.isPlayer)).map
          Combatant.gold)) ∧
      (((damageTarget cs.participants target dmg).filter
          (fun p => !p.isPlayer)).map Combatant.inventory =
        ((cs.participants.filter (fun p => !p.isPlayer)).map
          Combatant.inventory)) := by
    intro dmg
    unfold damageTarget
    exact filter_map_preserve _
      (fun p => by by_cases hn : p.name = target <;> simp [hn]) _
  split_ifs
  · exact key _
  · exact ⟨rfl, rfl⟩
  · exact key _
  · exact ⟨rfl, rfl⟩

/-- C5: whenever a combat command ends with Victory, the combat state
(with every enemy record) is discarded and the player receives the whole
of the hostiles' gold and inventories: the player's new gold is the old
gold plus the sum of enemy gold, and for every item name the player's new
count is the old count plus the enemies' counts — nothing is duplicated
and nothing is lost. -/
theorem victory_loot_conserved (s : GameSession) (cs : CombatState)
    (a : CombatAction) (roll dmgRoll : Nat)
    (hm : s.mode = .Combat) (hc : s.combat = some cs)
    (hv : (submitCombatAction s a roll dmgRoll).result =
      .ok (.ended .Victory)) :
    (submitCombatAction s a roll dmgRoll).session.combat = none ∧
    (submitCombatAction s a roll dmgRoll).session.player.gold =
      s.player.gold + ((hostiles cs).map Combatant.gold).sum ∧
    ∀ q, countName
        (submitCombatAction s a roll dmgRoll).session.player.inventory q =
      countName s.player.inventory q +
        ((hostiles cs).map (fun e => countName e.inventory q)).sum := by
  cases a with
  | flee =>
    by_cases hp :
      (resolveSkillCheck roll (playerDexMod cs) escapeDC).passes = true
    · simp [submitCombatAction, hm, hc, hp] at hv
    · simp [submitCombatAction, hm, hc, hp] at hv
  | defend =>
    have hred : submitCombatAction s CombatAction.defend roll dmgRoll =
        endOfAction s
          { cs with participants :=
                      setDefending cs.participants
                        cs.currentTurnIndex } := by
      simp [submitCombatAction, hm, hc]
    rw [hred] at hv ⊢
    obtain ⟨hnone, hpl⟩ := endOfAction_victory _ _ hv
    have hfields := setDefending_filter_fields cs.participants
      cs.currentTurnIndex
    refine ⟨hnone, ?_, fun q => ?_⟩
    · rw [hpl, (lootTransfer_spec _ _).1]
      have hg : (hostiles
          { cs with participants :=
                      setDefending cs.participants
                        cs.currentTurnIndex }).map Combatant.gold =
          (hostiles cs).map Combatant.gold := hfields.1
      rw [hg]
    · rw [hpl, (lootTransfer_spec _ _).2 q]
      have hi : (hostiles
          { cs with participants :=
                      setDefending cs.participants
                        cs.currentTurnIndex }).map
            (fun e => countName e.inventory q) =
          (hostiles cs).map (fun e => countName e.inventory q) :=
        map_countName_of_map_inventory _ _ q hfields.2
      rw [hi]
  | attack target =>
    cases hf : cs.participants.find?
        (fun p => !p.isPlayer && p.name == target) with
    | none => simp [submitCombatAction, hm, hc, hf] at hv
    | some tgt =>
      have hred : submitCombatAction s (.attack target) roll dmgRoll =
          endOfAction s
            { cs with participants :=
                        attackedParticipants cs target tgt roll
                          dmgRoll } := by
        simp [submitCombatAction, hm, hc, hf]
      rw [hred] at hv ⊢
      obtain ⟨hnone, hpl⟩ := endOfAction_victory _ _ hv
      have hfields := attackedParticipants_filter_fields cs target tgt
        roll dmgRoll
      refine ⟨hnone, ?_, fun q => ?_⟩
      · rw [hpl, (lootTransfer_spec _ _).1]
        have hg : (hostiles
            { cs with participants :=
                        attackedParticipants cs target tgt roll
                          dmgRoll }).map Combatant.gold =
            (hostiles cs).map Combatant.gold := hfields.1
        rw [hg]
      · rw [hpl, (lootTransfer_spec _ _).2 q]
        have hi : (hostiles
            { cs with participants :=
                        attackedParticipants cs target tgt roll
                          dmgRoll }).map
              (fun e => countName e.inventory q) =
            (hostiles cs).map (fun e => countName e.inventory q) :=
          map_countName_of_map_inventory _ _ q hfields.2
        rw [hi]

/-- Witness for C5: a critical hit fells the sample goblin; combat ends,
the goblin's 7 gold joins the player's 10, and its coin lands in the
player's inventory. -/
theorem victory_loot_conserved_witness :
    (submitCombatAction sampleCombatSession (CombatAction.attack "goblin")
      20 3).session.combat = none ∧
    (submitCombatAction sampleCombatSession (CombatAction.attack "goblin")
      20 3).session.player.gold = 17 ∧
    countName (submitCombatAction sampleCombatSession
      (CombatAction.attack "goblin") 20 3).session.player.inventory
      "coin" = 1 := by
  have h := victory_loot_conserved sampleCombatSession
    ⟨1, 0, [samplePC, sampleGoblin]⟩ (CombatAction.attack "goblin") 20 3
    rfl rfl (by decide)
  refine ⟨h.1, ?_, ?_⟩
  · rw [h.2.1]; decide
  · rw [h.2.2 "coin"]; decide

/-- C10: the GameStatus component renders nothing when no snapshot has
been fetched or the snapshot's player is null — so no stats panel, combat
card or inventory appears before character creation — and the health-bar
percentage current_health / max_health · 100 is only ever computed when a
player snapshot is present (every rendered view carries a player whose
health ratio it shows). -/
theorem gameStatus_null_guard (gameState : Option GameStateSnap)
    (combatState : Option CombatStateSnap) :
    (gameState = none → renderGameStatus gameState combatState = none) ∧
    (∀ gs, gameState = some gs → gs.player = none →
      renderGameStatus gameState combatState = none) ∧
    (∀ v, renderGameStatus gameState combatState = some v →
      ∃ gs pl, gameState = some gs ∧ gs.player = some pl ∧
        v.healthPercentage = pl.current_health / pl.max_health * 100) := by
  refine ⟨fun h => ?_, fun gs hg hp => ?_, fun v hv => ?_⟩
  · rw [h]; rfl
  · rw [hg]
    simp [renderGameStatus, hp]
  · cases hgs : gameState with
    | none => rw [hgs] at hv; exact absurd hv (by simp [renderGameStatus])
    | some gs =>
      rw [hgs] at hv
      cases hpl : gs.player with
      | none =>
        simp [renderGameStatus, hpl] at hv
      | some pl =>
        simp only [renderGameStatus, hpl] at hv
        injection hv with hv
        exact ⟨gs, pl, rfl, hpl, by rw [← hv]⟩

/-- Witness for C10: with no fetched snapshot, or a snapshot whose player
is null (even mid-combat), nothing renders; with the sample player
present, the rendered view's percentage is 30/40 · 100. -/
theorem gameStatus_null_guard_witness :
    renderGameStatus none (some ⟨true, none⟩) = none ∧
    renderGameStatus
      (some ⟨"exploration", none, [], ⟨none, none⟩⟩)
      (some ⟨true, none⟩) = none ∧
    (∃ gs pl, some sampleGameSnap = some gs ∧ gs.player = some pl ∧
      ((30 : ℚ) / 40 * 100) =
        pl.current_health / pl.max_health * 100) := by
  refine ⟨(gameStatus_null_guard none (some ⟨true, none⟩)).1 rfl,
    (gameStatus_null_guard (some ⟨"exploration", none, [], ⟨none, none⟩⟩)
      (some ⟨true, none⟩)).2.1 _ rfl rfl, ?_⟩
  have h := (gameStatus_null_guard (some sampleGameSnap) none).2.2
    { healthPercentage := (30 : ℚ) / 40 * 100,
      healthColor :=
        if (30 : ℚ) / 40 * 100 > 50 then "bg-green-500"
        else if (30 : ℚ) / 40 * 100 > 25 then "bg-yellow-500"
        else "bg-red-500",
      showsCombatCard := false,
      inventoryCount := 0 } rfl
  obtain ⟨gs, pl, h1, h2, h3⟩ := h
  exact ⟨gs, pl, h1, h2, h3⟩

end DungeonsAgents
